import Mathlib

/-!
# A shallow embedding of the NIL-NEWS aggregator

This file embeds the acquisition-and-ranking pipeline of the NIL news
aggregator (sources: `main.py`, `nil_news.py`, `nil_wire.py`) and proves
properties of it.  The canonical implementation, per the specification,
is `main.py` (the two-tier relevance test, the cap-15 scoring variant and
the composite ranking query); `nil_wire.py` contributes the `/summaries`
endpoint modelled at the end of this file.

Modelling conventions:
* Python strings are Lean `String`s; all string work happens on `.data`
  (`List Char`).  Python's `str.lower` is modelled on the ASCII range,
  which covers every keyword and marker in the source.
* Python floats in the scoring code only ever take integer values
  (weights 3.0/2.0/1.0, bonus 2.0, cap 15.0, integer occurrence counts),
  so scores are modelled exactly in `Nat`.
* SQLite TEXT timestamps are modelled by their chronological encoding:
  `sqliteDatetime` parses the subset of SQLite's datetime grammar the
  system produces and maps a valid date-time to an integer that is
  strictly monotone in the (year, month, day, hour, minute, second)
  tuple; canonical `datetime()` strings compare lexicographically in the
  same order.  An unparseable string maps to `none` (SQL NULL).
* External effects (SHA-256 hashing, the `trafilatura` extractor, the
  GPT summariser, regex entity extraction, URL parsing) are black-box
  capabilities, passed in as function parameters (`Oracles`); network
  fetch results are `Option String` (`none` = timeout/transport error,
  i.e. the `except:` path).
-/

/-- Python `str.lower` on one character, restricted to ASCII (the only
case-folding the source's keyword lists exercise). -/
def asciiLower (c : Char) : Char :=
  if 65 ≤ c.toNat ∧ c.toNat ≤ 90 then Char.ofNat (c.toNat + 32) else c

/-- Python `str.lower` on a string. -/
def lowerStr (s : String) : String :=
  String.mk (s.data.map asciiLower)

/-- Python's substring test `needle in hay` on character lists. -/
def containsSub : List Char → List Char → Bool
  | n, [] => n.isEmpty
  | n, c :: t => n.isPrefixOf (c :: t) || containsSub n t

/-- Python `needle in hay` on strings. -/
def strContains (hay needle : String) : Bool :=
  containsSub needle.data hay.data

/-- Worker for `countOccs`: scans the haystack left to right; `blocked`
is the number of characters still covered by the most recent match, so
matches never overlap, exactly like Python's greedy `str.count`. -/
def countOccsGo (n : List Char) : List Char → Nat → Nat
  | [], _ => 0
  | c :: t, 0 =>
      if n.isPrefixOf (c :: t) then countOccsGo n t (n.length - 1) + 1
      else countOccsGo n t 0
  | _ :: t, b + 1 => countOccsGo n t b

/-- Python `hay.count(needle)`: the number of non-overlapping occurrences,
scanning greedily left to right (Python returns `len + 1` for an empty
needle). -/
def countOccs (n h : List Char) : Nat :=
  if n.isEmpty then h.length + 1 else countOccsGo n h 0

/-- Python `hay.count(needle)` on strings. -/
def strCount (hay needle : String) : Nat :=
  countOccs needle.data hay.data

/-- Python slicing `s[:n]` (by characters). -/
def pyTake (s : String) (n : Nat) : String :=
  String.mk (s.data.take n)

/-! ## Vocabulary (the literal lists of `main.py`) -/

/-- `KEYWORDS` of `main.py` (lines 47-55). -/
def KEYWORDS : List String :=
  ["nil", "name image likeness", "nil deal", "nil collective", "nil marketplace",
   "collective", "booster", "endorsement", "sponsorship", "brand deal",
   "student-athlete", "college athlete", "transfer portal", "recruiting",
   "house v ncaa", "house settlement", "opendorse", "marketpryce", "icon source",
   "social media influencer", "athlete influencer", "nil influencer",
   "ncaa", "compliance", "eligibility", "fair market value", "revenue sharing",
   "antitrust", "lawsuit", "settlement", "pay for play", "recruiting inducement"]

/-- High-value keywords of `calculate_relevance_score` (3 points each). -/
def high_value : List String :=
  ["nil deal", "nil collective", "house v ncaa", "nil endorsement",
   "nil settlement", "nil lawsuit", "breaking:", "exclusive:"]

/-- Medium-value keywords of `calculate_relevance_score` (2 points each). -/
def medium_value : List String :=
  ["nil", "collective", "booster", "endorsement", "transfer portal",
   "opendorse", "marketpryce"]

/-- Low-value keywords of `calculate_relevance_score` (1 point each). -/
def low_value : List String :=
  ["college athlete", "student-athlete", "recruiting", "ncaa"]

/-- The urgency markers of `calculate_relevance_score`'s +2 bonus. -/
def urgency_indicators : List String :=
  ["breaking", "exclusive", "just in", "developing"]

/-- The markers of `is_breaking_news`. -/
def breaking_indicators : List String :=
  ["breaking", "just in", "developing", "exclusive", "first reported"]

/-- Positive sentiment markers of `detect_sentiment`. -/
def positive_words : List String :=
  ["record", "milestone", "success", "breakthrough", "major deal",
   "signing", "partnership", "expansion", "growth", "opportunity"]

/-- Negative sentiment markers of `detect_sentiment`. -/
def negative_words : List String :=
  ["lawsuit", "violation", "penalty", "suspended", "banned",
   "controversy", "scandal", "investigation", "denied", "rejected"]

/-- The ordered category table of `categorize_content` (Python dicts keep
insertion order, so the `for category, keywords in categories.items()`
scan is a first-match-wins scan over this list). -/
def category_table : List (String × List String) :=
  [("Breaking News", ["breaking", "just in", "developing", "exclusive"]),
   ("Legal", ["lawsuit", "settlement", "antitrust", "legal", "court", "house v ncaa"]),
   ("Collectives", ["collective", "booster", "donor", "fund"]),
   ("Technology", ["marketplace", "platform", "app", "technology", "opendorse", "marketpryce"]),
   ("Social Media", ["social media", "influencer", "instagram", "tiktok", "youtube"]),
   ("Recruiting", ["transfer portal", "recruiting", "prospect", "commit"]),
   ("High School", ["high school", "prep", "youth"]),
   ("Business", ["revenue", "deal", "contract", "partnership", "sponsorship", "valuation"]),
   ("Policy", ["ncaa", "compliance", "eligibility", "rules", "regulation"])]

/-! ## The relevance engine (`main.py`, pure functions) -/

/-- `(title + " " + text).lower()`, the combined text every engine
function works on. -/
def combined (title text : String) : String :=
  lowerStr (title ++ " " ++ text)

/-- `main.py calculate_relevance_score` (lines 157-184).  Three weighted
occurrence-count loops, a +2 urgency bonus, capped at 15.  All values are
integral, so the float arithmetic is modelled exactly in `Nat`. -/
def calculate_relevance_score (title text : String) : Nat :=
  let content := combined title text
  let s1 := high_value.foldl (fun acc k => acc + strCount content k * 3) 0
  let s2 := medium_value.foldl (fun acc k => acc + strCount content k * 2) s1
  let s3 := low_value.foldl (fun acc k => acc + strCount content k * 1) s2
  let s4 := if urgency_indicators.any (fun i => strContains content i) then s3 + 2 else s3
  min s4 15

/-- `main.py is_relevant` (lines 242-249): at least 2 of the (lowercased)
keywords occur as substrings of the lowercased text. -/
def is_relevant (text : String) : Bool :=
  let text_lower := lowerStr text
  decide (2 ≤ (KEYWORDS.map lowerStr).countP (fun k => strContains text_lower k))

/-- `main.py is_breaking_news` (lines 236-240). -/
def is_breaking_news (title text : String) : Bool :=
  breaking_indicators.any (fun i => strContains (combined title text) i)

/-- `main.py detect_sentiment` (lines 217-234): positive vs negative
marker membership counts, majority wins, tie is neutral. -/
def detect_sentiment (title text : String) : String :=
  let content := combined title text
  let positive_count := positive_words.countP (fun w => strContains content w)
  let negative_count := negative_words.countP (fun w => strContains content w)
  if negative_count < positive_count then "positive"
  else if positive_count < negative_count then "negative"
  else "neutral"

/-- `main.py categorize_content` (lines 251-271): first category whose
keyword set hits the combined text, else "General". -/
def categorize_content (title text : String) : String :=
  let c := combined title text
  match category_table.find? (fun cat => cat.2.any (fun k => strContains c k)) with
  | some cat => cat.1
  | none => "General"


/-! ## Data model: feed entries, stored records, external capabilities -/

/-- A parsed feed entry (`feedparser` dict): the fields `process_entry`
reads via `entry.get(...)`.  `none` models an absent key. -/
structure Entry where
  link : Option String
  title : Option String
  summary : Option String
  description : Option String
  published : Option String
deriving DecidableEq

/-- A row of the `stories` table as `main.py process_entry` inserts it
(the 13 columns, in order). -/
structure Record where
  id : String
  title : String
  url : String
  published : String
  summary : String
  brief : String
  crawledAt : String
  source : String
  category : String
  relevance : Nat
  sentiment : String
  entities : List String
  breaking : Bool
deriving DecidableEq

/-- External black-box capabilities `process_entry` calls: the SHA-256
hex digest, the `trafilatura` extractor (`""` models a falsy result),
`enhanced_summarize_text`, `extract_key_entities` (regex based) and
`extract_source` (URL parsing).  They are pure string functions; the
claims hold for every choice of them. -/
structure Oracles where
  hash : String → String
  extractOf : String → String
  summarize : String → String
  entities : String → String → List String
  sourceOf : String → String

/-- The outcome of `main.py process_entry` on one entry: which of its
four `return` paths ran.  The function never raises: every path is one
of these constructors. -/
inductive PEOutcome where
  | stored
  | alreadyExists
  | noUrl
  | irrelevant
deriving DecidableEq

/-- The content-resolution step of `main.py process_entry` (lines
367-377).  `page` is the try-block's fetch: `some html` when
`client.get(url)` returned, `none` when anything in the try block raised
(timeout, transport error, non-2xx handling).  On success the text is
`extract(response.text) or response.text[:2000]`; on the `except:` path
it is `entry.get("summary","") + " " + entry.get("description","")`.
Total: an empty result is data, never a propagated error. -/
def resolveText (page : Option String) (ex : String → String) (e : Entry) : String :=
  match page with
  | some html => if ex html = "" then pyTake html 2000 else ex html
  | none => e.summary.getD "" ++ " " ++ e.description.getD ""

/-- `main.py process_entry` (lines 353-397) over an in-memory model of
the `stories` table (a list of rows, insertion order kept).  `pages`
maps a URL to its fetch result for this pass. -/
def process_entry (o : Oracles) (pages : String → Option String) (now : String)
    (e : Entry) (db : List Record) : List Record × PEOutcome :=
  match e.link with
  | none => (db, PEOutcome.noUrl)
  | some url =>
    let story_id := o.hash url
    if db.any (fun r => r.id == story_id) then (db, PEOutcome.alreadyExists)
    else
      let title := e.title.getD "No title"
      let text := resolveText (pages url) o.extractOf e
      if is_relevant (title ++ " " ++ text) = false then (db, PEOutcome.irrelevant)
      else
        (db ++ [{ id := story_id, title := title, url := url,
                  published := e.published.getD "",
                  summary := pyTake text 3000, brief := o.summarize text,
                  crawledAt := now, source := o.sourceOf url,
                  category := categorize_content title text,
                  relevance := calculate_relevance_score title text,
                  sentiment := detect_sentiment title text,
                  entities := o.entities title text,
                  breaking := is_breaking_news title text }], PEOutcome.stored)

/-- How many stored rows carry the id `i` (the dedup invariant's
measure). -/
def countId (db : List Record) (i : String) : Nat :=
  db.countP (fun r => r.id == i)

/-- Repeated ingestion of the same entry across any number of crawl
passes; each pass has its own fetch results and clock reading. -/
def ingest_many (o : Oracles) (runs : List ((String → Option String) × String))
    (e : Entry) (db : List Record) : List Record :=
  runs.foldl (fun d pn => (process_entry o pn.1 pn.2 e d).1) db

/-- What one source contributes to a pass of `main.py crawl_feeds`:
`err` models the per-feed `except:` path (fetch or parse raised), `bozo`
the `feed.bozo` continue, `ok` a parsed feed's entry list. -/
inductive FeedResult where
  | err
  | bozo
  | ok (entries : List Entry)
deriving DecidableEq

/-- `main.py crawl_feeds` (lines 329-351): one pass over the sources; a
failing or bozo source is skipped, an ok source has its first 8 entries
processed in order. -/
def crawl_feeds (o : Oracles) (pages : String → Option String) (now : String)
    (feeds : List FeedResult) (db : List Record) : List Record :=
  feeds.foldl (fun d f =>
    match f with
    | FeedResult.err => d
    | FeedResult.bozo => d
    | FeedResult.ok entries =>
        (entries.take 8).foldl (fun d2 e => (process_entry o pages now e d2).1) d) db

/-! ## The crawl trigger (`main.py manual_crawl`) -/

/-- The process state the `/api/crawl` endpoint touches: the number of
`crawl_feeds` tasks currently in flight (`asyncio.create_task` spawns
one more; `main.py` keeps no flag, lock or any other guard state). -/
structure AppState where
  activeCrawls : Nat
deriving DecidableEq

/-- `main.py manual_crawl` (lines 918-922): unconditionally spawns a new
crawl task and answers "enhanced crawl started". -/
def manual_crawl (s : AppState) : AppState × String :=
  ({ activeCrawls := s.activeCrawls + 1 }, "enhanced crawl started")

/-! ## SQLite datetime and the ranking query (`main.py get_summaries`) -/

/-- ASCII digit test. -/
def isDigitCh (c : Char) : Bool :=
  48 ≤ c.toNat && c.toNat ≤ 57

/-- Digit value of an ASCII digit. -/
def digitVal (c : Char) : Nat :=
  c.toNat - 48

/-- Two decimal digits. -/
def parse2 : List Char → Option (Nat × List Char)
  | a :: b :: r =>
      if isDigitCh a && isDigitCh b then some (10 * digitVal a + digitVal b, r) else none
  | _ => none

/-- Four decimal digits (the year). -/
def parse4 : List Char → Option (Nat × List Char)
  | a :: b :: c :: d :: r =>
      if isDigitCh a && isDigitCh b && isDigitCh c && isDigitCh d then
        some (1000 * digitVal a + 100 * digitVal b + 10 * digitVal c + digitVal d, r)
      else none
  | _ => none

/-- One expected character. -/
def expectCh (ch : Char) : List Char → Option (List Char)
  | c :: r => if c = ch then some r else none
  | _ => none

/-- Chronological encoding of a date-time tuple: strictly monotone in
(year, month, day, hour, minute, second), exactly the order in which
SQLite's canonical `datetime()` strings compare as TEXT. -/
def encDateTime (y mo d h mi s : Nat) : Nat :=
  ((((y * 12 + (mo - 1)) * 31 + (d - 1)) * 24 + h) * 60 + mi) * 60 + s

/-- The optional seconds-and-fraction tail `[:SS[.fff]]` after `HH:MM`. -/
def parseSecondsTail : List Char → Option Nat
  | [] => some 0
  | ':' :: r => do
      let (s, r2) ← parse2 r
      if 59 < s then none else
      match r2 with
      | [] => some s
      | '.' :: c :: r3 =>
          if isDigitCh c && (r3.dropWhile isDigitCh) = [] then some s else none
      | _ => none
  | _ => none

/-- The subset of SQLite's date-time grammar this system produces:
`YYYY-MM-DD`, optionally followed by `T` or a space and `HH:MM[:SS[.fff]]`
(fractional seconds are truncated, as `datetime()` does).  Anything else
— in particular the RFC-822 `published` strings feedparser delivers —
is unparseable and yields `none`, SQLite's NULL. -/
def sqliteDatetime (str : String) : Option Int := do
  let (y, r1) ← parse4 str.data
  let r2 ← expectCh '-' r1
  let (mo, r3) ← parse2 r2
  let r4 ← expectCh '-' r3
  let (d, r5) ← parse2 r4
  if mo < 1 || 12 < mo || d < 1 || 31 < d then none else
  match r5 with
  | [] => some (encDateTime y mo d 0 0 0 : Nat)
  | sep :: r6 =>
      if sep ≠ ' ' ∧ sep ≠ 'T' then none else do
      let (h, r7) ← parse2 r6
      let r8 ← expectCh ':' r7
      let (mi, r9) ← parse2 r8
      if 23 < h || 59 < mi then none else
      let s ← parseSecondsTail r9
      some (encDateTime y mo d h mi s : Nat)

/-- SQL `x > t` for a nullable left operand: NULL compares as unknown,
which a `CASE WHEN` treats as false. -/
def opt_gt (o : Option Int) (t : Int) : Bool :=
  match o with
  | none => false
  | some v => decide (t < v)

/-- `ORDER BY ... DESC` comparison on a nullable sort key: SQLite sorts
NULL below every value (so NULLs come last in a DESC sort). -/
def opt_le (a b : Option Int) : Bool :=
  match a, b with
  | none, _ => true
  | some _, none => false
  | some x, some y => decide (x ≤ y)

/-- The `sort_date` column of `get_summaries` (lines 804-808):
`datetime(published)` when `published` is non-empty, else
`datetime(crawled_at)`.  There is no parseability fallback: a non-empty
unparseable `published` makes `sort_date` NULL. -/
def sort_date (r : Record) : Option Int :=
  if r.published ≠ "" then sqliteDatetime r.published else sqliteDatetime r.crawledAt

/-- The composite ORDER BY expression of `get_summaries` (lines 810-823).
`n1`, `n3`, `n7`, `n14` are the values of `datetime('now','-1 day')`,
`'-3 days'`, `'-7 days'`, `'-14 days'` under the chronological encoding.
The relevance column is non-null for every row this model inserts, so
`COALESCE(relevance_score, 0)` is the column itself. -/
def sql_composite (n1 n3 n7 n14 : Int) (r : Record) : Nat :=
  (if r.breaking && opt_gt (sort_date r) n1 then 1000 else 0) +
  (if opt_gt (sort_date r) n1 then 50
   else if opt_gt (sort_date r) n3 then 30
   else if opt_gt (sort_date r) n7 then 20
   else if opt_gt (sort_date r) n14 then 10
   else 0) +
  r.relevance

/-- The two-key ORDER BY of `get_summaries` as a Boolean "comes no later
than" test: composite descending, ties by `sort_date` descending. -/
def rank_le_b (n1 n3 n7 n14 : Int) (a b : Record) : Bool :=
  decide (sql_composite n1 n3 n7 n14 b < sql_composite n1 n3 n7 n14 a) ||
  (sql_composite n1 n3 n7 n14 a == sql_composite n1 n3 n7 n14 b &&
   opt_le (sort_date b) (sort_date a))

/-- `rank_le_b` as a relation, for sorting. -/
def rank_rel (n1 n3 n7 n14 : Int) (a b : Record) : Prop :=
  rank_le_b n1 n3 n7 n14 a b = true

instance (n1 n3 n7 n14 : Int) : DecidableRel (rank_rel n1 n3 n7 n14) :=
  fun _ _ => inferInstanceAs (Decidable (_ = true))

/-- SQLite `LIMIT ?`: a negative limit means no limit at all. -/
def limitTake {α : Type} (lim : Int) (xs : List α) : List α :=
  if lim < 0 then xs else xs.take lim.toNat

/-- `main.py get_summaries` (lines 796-847): the rows of the store,
ordered by the composite ORDER BY and truncated by `LIMIT ?`. -/
def get_summaries (n1 n3 n7 n14 : Int) (lim : Int) (db : List Record) : List Record :=
  limitTake lim (List.insertionSort (rank_rel n1 n3 n7 n14) db)

/-! ### The specification's ranking formula, written from its words -/

/-- Spec: "breakingBonus (large constant, e.g. 1000, applied only if
breakingNews and recencyBasis within the last 24h)".  The recency basis
here is the record's `sort_date` (what the code actually bases recency
on; its own definition is claim C8's subject). -/
def breaking_bonus (n1 : Int) (r : Record) : Nat :=
  if r.breaking = true ∧ opt_gt (sort_date r) n1 = true then 1000 else 0

/-- Spec: "recencyBonus (tiered constant decreasing with age: 50 / 30 /
20 / 10 / 0 for <1d / <3d / <7d / <14d / older)". -/
def recency_bonus (n1 n3 n7 n14 : Int) (r : Record) : Nat :=
  if opt_gt (sort_date r) n1 = true then 50
  else if opt_gt (sort_date r) n3 = true then 30
  else if opt_gt (sort_date r) n7 = true then 20
  else if opt_gt (sort_date r) n14 = true then 10
  else 0

/-- Spec: composite = breakingBonus + recencyBonus + relevanceScore. -/
def spec_composite (n1 n3 n7 n14 : Int) (r : Record) : Nat :=
  breaking_bonus n1 r + recency_bonus n1 n3 n7 n14 r + r.relevance

/-- Spec: "sort descending by composite score; ties broken by
recencyBasis descending (newest first)" — `a` may come before `b` iff
`a`'s composite is larger, or equal with `a`'s recency basis no older. -/
def spec_rank (n1 n3 n7 n14 : Int) (a b : Record) : Prop :=
  spec_composite n1 n3 n7 n14 b < spec_composite n1 n3 n7 n14 a ∨
  (spec_composite n1 n3 n7 n14 a = spec_composite n1 n3 n7 n14 b ∧
   opt_le (sort_date b) (sort_date a) = true)

/-- Claim C8's recency basis, written from the spec's words:
`publishedAt` if present and parseable, else `ingestedAt`. -/
def spec_recency_basis (published crawled : String) : Option Int :=
  match sqliteDatetime published with
  | some t => some t
  | none => sqliteDatetime crawled

/-! ## The `nil_wire.py` summaries endpoint -/

/-- A row of `nil_wire.py`'s `stories` table (7 columns). -/
structure WireStory where
  id : String
  title : String
  url : String
  published : String
  summary : String
  brief : String
  crawledAt : String
deriving DecidableEq

/-- Lexicographic byte-order comparison of character lists — how SQLite
compares TEXT values (codepoint order equals UTF-8 byte order). -/
def lexLe : List Char → List Char → Bool
  | [], _ => true
  | _ :: _, [] => false
  | a :: as, b :: bs =>
      if a.toNat < b.toNat then true
      else if b.toNat < a.toNat then false
      else lexLe as bs

/-- `ORDER BY crawled_at DESC`: `a` may come before `b` iff `b`'s
`crawled_at` is no larger. -/
def crawl_desc (a b : WireStory) : Prop :=
  lexLe b.crawledAt.data a.crawledAt.data = true

instance : DecidableRel crawl_desc :=
  fun _ _ => inferInstanceAs (Decidable (_ = true))

/-- `nil_wire.py /summaries` (lines 227-236): an HTTP 400 when the limit
exceeds 500, otherwise the rows ordered by `crawled_at DESC` and cut by
`LIMIT ?` (negative SQLite limits are unbounded). -/
def summaries (lim : Int) (db : List WireStory) : Except (Nat × String) (List WireStory) :=
  if 500 < lim then Except.error (400, "limit too high")
  else Except.ok (limitTake lim (List.insertionSort crawl_desc db))


/-! ## Specification-side definitions and concrete fixtures -/

/-- The specification's two-tier relevance test, written from its words:
relevant iff (a) some high-signal phrase appears verbatim
(case-insensitively) in the combined text, or (b) at least 2 distinct
vocabulary terms appear.  The high-signal phrases are the code's own
high-value phrase list. -/
def spec_two_tier (txt : String) : Bool :=
  high_value.any (fun p => strContains (lowerStr txt) p) ||
  decide (2 ≤ (KEYWORDS.map lowerStr).countP (fun k => strContains (lowerStr txt) k))

/-- The specification's scoring formula, written from its words: the sum
over the vocabulary of weight times occurrence count (3 high, 2 medium,
1 low), plus 2 if any urgency marker is present, capped at 15. -/
def spec_relevance_formula (title text : String) : Nat :=
  let content := combined title text
  min ((high_value.map (fun k => 3 * strCount content k)).sum +
       (medium_value.map (fun k => 2 * strCount content k)).sum +
       (low_value.map (fun k => strCount content k)).sum +
       (if urgency_indicators.any (fun i => strContains content i) then 2 else 0)) 15

/-- A feed entry whose page fetch succeeds but whose text extraction is
empty, with a non-empty feed summary (claim C6's scenario). -/
def entry_c6 : Entry :=
  { link := some "https://x.com/a", title := some "Big NIL Deal",
    summary := some "Star player signs deal", description := none,
    published := none }

/-- A stored row whose `published` is present but not parseable by
SQLite (feedparser delivers RFC-822 dates), with a parseable
`crawled_at` (claim C8's scenario). -/
def row_c8 : Record :=
  { id := "i", title := "t", url := "u", published := "Thu, 05 Jun 2024 12:00:00 GMT",
    summary := "", brief := "", crawledAt := "2024-06-05T12:00:00.000000",
    source := "s", category := "c", relevance := 5, sentiment := "neutral",
    entities := [], breaking := false }

/-- A single stored `nil_wire` row (claim C10's scenario). -/
def wire_c10 : WireStory :=
  { id := "i", title := "t", url := "u", published := "",
    summary := "", brief := "b", crawledAt := "2024-06-05T12:00:00" }

/-- A concrete choice of the external capabilities, for witnesses. -/
def oracle_w : Oracles :=
  { hash := fun s => "sha:" ++ s, extractOf := fun _ => "",
    summarize := fun _ => "", entities := fun _ _ => [], sourceOf := fun _ => "src" }

/-- A concrete relevant feed entry, for witnesses (the spec's scenario
entry: title "Big NIL Deal", summary mentioning a collective deal). -/
def entry_w : Entry :=
  { link := some "https://x.com/a", title := some "Big NIL Deal",
    summary := some "Star player signs $2 million collective deal",
    description := none, published := some "Thu, 05 Jun 2024 12:00:00 GMT" }

/-! ## Lemmas about the string primitives -/

theorem isPrefixOf_append_of {n h : List Char} (s : List Char)
    (hp : n.isPrefixOf h = true) : n.isPrefixOf (h ++ s) = true := by
  induction n generalizing h with
  | nil => simp [List.isPrefixOf]
  | cons a as ih =>
    cases h with
    | nil => simp [List.isPrefixOf] at hp
    | cons b bs =>
      simp only [List.isPrefixOf, List.cons_append, Bool.and_eq_true, beq_iff_eq] at hp ⊢
      exact ⟨hp.1, ih hp.2⟩

theorem length_le_of_isPrefixOf {n h : List Char}
    (hp : n.isPrefixOf h = true) : n.length ≤ h.length := by
  induction n generalizing h with
  | nil => simp
  | cons a as ih =>
    cases h with
    | nil => simp [List.isPrefixOf] at hp
    | cons b bs =>
      simp only [List.isPrefixOf, Bool.and_eq_true] at hp
      have := ih hp.2
      simp only [List.length_cons]
      omega

theorem isPrefixOf_of_append {n h : List Char} (s : List Char)
    (hlen : n.length ≤ h.length) (hp : n.isPrefixOf (h ++ s) = true) :
    n.isPrefixOf h = true := by
  induction n generalizing h with
  | nil => simp [List.isPrefixOf]
  | cons a as ih =>
    cases h with
    | nil => simp at hlen
    | cons b bs =>
      simp only [List.cons_append, List.isPrefixOf, Bool.and_eq_true] at hp ⊢
      refine ⟨hp.1, ih ?_ hp.2⟩
      simp only [List.length_cons] at hlen
      omega

theorem countOccsGo_short {n : List Char} :
    ∀ {h : List Char} {b : Nat}, h.length < n.length → countOccsGo n h b = 0 := by
  intro h
  induction h with
  | nil => intro b _; rfl
  | cons c t ih =>
    intro b hl
    cases b with
    | zero =>
      have hnp : ¬ n.isPrefixOf (c :: t) = true := by
        intro hcon
        have := length_le_of_isPrefixOf hcon
        omega
      simp only [countOccsGo, if_neg hnp]
      exact ih (by simp only [List.length_cons] at hl ⊢; omega)
    | succ b2 =>
      simp only [countOccsGo]
      exact ih (by simp only [List.length_cons] at hl ⊢; omega)

theorem countOccsGo_append_le (n s : List Char) :
    ∀ (h : List Char) (b : Nat), countOccsGo n h b ≤ countOccsGo n (h ++ s) b := by
  intro h
  induction h with
  | nil => intro b; exact Nat.zero_le _
  | cons c t ih =>
    intro b
    have e : (c :: t) ++ s = c :: (t ++ s) := rfl
    rw [e]
    cases b with
    | zero =>
      by_cases hp : n.isPrefixOf (c :: t) = true
      · have hp2 : n.isPrefixOf (c :: (t ++ s)) = true := by
          have := isPrefixOf_append_of (h := c :: t) s hp
          simpa using this
        simp only [countOccsGo, if_pos hp, if_pos hp2]
        exact Nat.add_le_add_right (ih _) 1
      · by_cases hp2 : n.isPrefixOf (c :: (t ++ s)) = true
        · have hlen : (c :: t).length < n.length := by
            by_contra hcon
            push_neg at hcon
            exact hp (isPrefixOf_of_append s hcon hp2)
          have h0 : countOccsGo n t 0 = 0 :=
            countOccsGo_short (by simp only [List.length_cons] at hlen ⊢; omega)
          simp only [countOccsGo, if_neg hp, if_pos hp2, h0]
          exact Nat.zero_le _
        · simp only [countOccsGo, if_neg hp, if_neg hp2]
          exact ih 0
    | succ b2 =>
      simp only [countOccsGo]
      exact ih b2

theorem countOccs_append_le (n h s : List Char) :
    countOccs n h ≤ countOccs n (h ++ s) := by
  by_cases hn : n.isEmpty = true
  · simp only [countOccs, if_pos hn, List.length_append]
    omega
  · simp only [countOccs, if_neg hn]
    exact countOccsGo_append_le n s h 0

theorem containsSub_nil_left : ∀ (s : List Char), containsSub [] s = true
  | [] => rfl
  | _ :: _ => by simp [containsSub, List.isPrefixOf]

theorem containsSub_append_of {n h : List Char} (s : List Char)
    (hc : containsSub n h = true) : containsSub n (h ++ s) = true := by
  induction h with
  | nil =>
    have hempty : n.isEmpty = true := by simpa [containsSub] using hc
    have : n = [] := by simpa [List.isEmpty_iff] using hempty
    subst this
    exact containsSub_nil_left s
  | cons c t ih =>
    simp only [containsSub, Bool.or_eq_true] at hc
    rcases hc with hc | hc
    · simp only [List.cons_append, containsSub, Bool.or_eq_true]
      exact Or.inl (by simpa using isPrefixOf_append_of s hc)
    · simp only [List.cons_append, containsSub, Bool.or_eq_true]
      exact Or.inr (ih hc)

/-! ## The scoring loops as sums -/

theorem foldl_score (c : String) (w : Nat) :
    ∀ (l : List String) (a : Nat),
      l.foldl (fun acc k => acc + strCount c k * w) a
        = a + (l.map (fun k => strCount c k * w)).sum := by
  intro l
  induction l with
  | nil => intro a; simp
  | cons x xs ih =>
    intro a
    rw [List.foldl_cons, ih, List.map_cons, List.sum_cons]
    omega

theorem combined_append_data (title text k : String) :
    (combined title (text ++ k)).data = (combined title text).data ++ (lowerStr k).data := by
  simp [combined, lowerStr, List.map_append, List.append_assoc]

theorem strCount_append_mono (title text k kw : String) :
    strCount (combined title text) kw ≤ strCount (combined title (text ++ k)) kw := by
  unfold strCount
  rw [combined_append_data]
  exact countOccs_append_le _ _ _

theorem strContains_append_mono {title text k i : String}
    (h : strContains (combined title text) i = true) :
    strContains (combined title (text ++ k)) i = true := by
  unfold strContains at h ⊢
  rw [combined_append_data]
  exact containsSub_append_of _ h

theorem map_sum_mul_comm (c : String) (w : Nat) (l : List String) :
    (l.map (fun k => strCount c k * w)).sum = (l.map (fun k => w * strCount c k)).sum := by
  induction l with
  | nil => rfl
  | cons x xs ih =>
    rw [List.map_cons, List.sum_cons, List.map_cons, List.sum_cons, ih]
    ring

theorem map_sum_mul_one (c : String) (l : List String) :
    (l.map (fun k => strCount c k * 1)).sum = (l.map (fun k => strCount c k)).sum := by
  simp [Nat.mul_one]

/-- C4: the relevance score is the capped weighted-occurrence sum plus
the urgency bonus — the code's three accumulation loops compute exactly
the specification's formula. -/
theorem nil_c4_scoring_formula : ∀ (title text : String),
    calculate_relevance_score title text = spec_relevance_formula title text := by
  intro title text
  simp only [calculate_relevance_score, spec_relevance_formula]
  simp only [foldl_score, map_sum_mul_comm, map_sum_mul_one]
  generalize (urgency_indicators.any fun i => strContains (combined title text) i) = u
  cases u <;> simp

/-- C7: appending one more occurrence of a high-value keyword never
decreases the relevance score, and the score never exceeds the cap 15. -/
theorem nil_c7_monotone_capped : ∀ (title text k : String), k ∈ high_value →
    calculate_relevance_score title text ≤ calculate_relevance_score title (text ++ k) ∧
    calculate_relevance_score title text ≤ 15 := by
  intro title text k _
  refine ⟨?_, Nat.min_le_right _ _⟩
  simp only [calculate_relevance_score]
  simp only [foldl_score]
  have hs1 : ((high_value.map (fun kw => strCount (combined title text) kw * 3)).sum ≤
      (high_value.map (fun kw => strCount (combined title (text ++ k)) kw * 3)).sum) :=
    List.sum_le_sum fun kw _ =>
      Nat.mul_le_mul (strCount_append_mono title text k kw) (le_refl 3)
  have hs2 : ((medium_value.map (fun kw => strCount (combined title text) kw * 2)).sum ≤
      (medium_value.map (fun kw => strCount (combined title (text ++ k)) kw * 2)).sum) :=
    List.sum_le_sum fun kw _ =>
      Nat.mul_le_mul (strCount_append_mono title text k kw) (le_refl 2)
  have hs3 : ((low_value.map (fun kw => strCount (combined title text) kw * 1)).sum ≤
      (low_value.map (fun kw => strCount (combined title (text ++ k)) kw * 1)).sum) :=
    List.sum_le_sum fun kw _ =>
      Nat.mul_le_mul (strCount_append_mono title text k kw) (le_refl 1)
  cases hcond : (urgency_indicators.any fun i => strContains (combined title text) i) with
  | false =>
    cases hcond2 : (urgency_indicators.any fun i => strContains (combined title (text ++ k)) i) with
    | false => simp only [Bool.false_eq_true, if_false]; omega
    | true => simp only [Bool.false_eq_true, if_false, if_true]; omega
  | true =>
    have hcond2 : (urgency_indicators.any fun i => strContains (combined title (text ++ k)) i) = true := by
      simp only [List.any_eq_true] at hcond ⊢
      obtain ⟨i, hi, hci⟩ := hcond
      exact ⟨i, hi, strContains_append_mono hci⟩
    rw [hcond2]
    simp only [if_true]
    omega

/-- Witness for C7 at a concrete input. -/
theorem nil_c7_monotone_capped_witness :
    calculate_relevance_score "Big" "nil story" ≤
      calculate_relevance_score "Big" ("nil story" ++ "nil deal") ∧
    calculate_relevance_score "Big" "nil story" ≤ 15 :=
  nil_c7_monotone_capped "Big" "nil story" "nil deal" (by decide)

/-! ## Claim C3: the relevance test -/

theorem countP_two_of_pair {α : Type} [DecidableEq α] {p : α → Bool} :
    ∀ {l : List α} {a b : α}, a ∈ l → b ∈ l → a ≠ b → p a = true → p b = true →
      2 ≤ l.countP p := by
  intro l
  induction l with
  | nil => intro a b ha _ _ _ _; simp at ha
  | cons x xs ih =>
    intro a b ha hb hab hpa hpb
    rw [List.countP_cons]
    rcases List.mem_cons.mp ha with rfl | ha2
    · rcases List.mem_cons.mp hb with rfl | hb2
      · exact absurd rfl hab
      · have h1 : 0 < xs.countP p := List.countP_pos_iff.mpr ⟨b, hb2, hpb⟩
        rw [if_pos hpa]
        omega
    · rcases List.mem_cons.mp hb with rfl | hb2
      · have h1 : 0 < xs.countP p := List.countP_pos_iff.mpr ⟨a, ha2, hpa⟩
        rw [if_pos hpb]
        omega
      · have := ih ha2 hb2 hab hpa hpb
        by_cases hx : p x = true
        · rw [if_pos hx]; omega
        · rw [if_neg hx]; omega

theorem pair_of_countP_two {α : Type} [DecidableEq α] {p : α → Bool} :
    ∀ {l : List α}, l.Nodup → 2 ≤ l.countP p →
      ∃ a ∈ l, ∃ b ∈ l, a ≠ b ∧ p a = true ∧ p b = true := by
  intro l
  induction l with
  | nil => intro _ h; simp at h
  | cons x xs ih =>
    intro hnd h
    rw [List.countP_cons] at h
    by_cases hx : p x = true
    · rw [if_pos hx] at h
      have h1 : 0 < xs.countP p := by omega
      obtain ⟨b, hb, hpb⟩ := List.countP_pos_iff.mp h1
      refine ⟨x, List.mem_cons_self x xs, b, List.mem_cons_of_mem x hb, ?_, hx, hpb⟩
      rintro rfl
      exact (List.nodup_cons.mp hnd).1 hb
    · rw [if_neg hx] at h
      obtain ⟨a, ha, b, hb, hab, hpa, hpb⟩ := ih (List.nodup_cons.mp hnd).2 (by omega)
      exact ⟨a, List.mem_cons_of_mem x ha, b, List.mem_cons_of_mem x hb, hab, hpa, hpb⟩

/-- C3 counterexample: the combined text "breaking: " contains the
high-signal phrase "breaking:" verbatim, so the specification's two-tier
test accepts it, but the code's `is_relevant` (which only counts
vocabulary matches) rejects it. -/
theorem nil_c3_cx_high_signal :
    spec_two_tier ("breaking:" ++ " " ++ "") = true ∧
    is_relevant ("breaking:" ++ " " ++ "") = false := by decide

/-- C3 amended: the code's relevance test accepts a text exactly when at
least two distinct vocabulary keywords occur (case-insensitively, as
substrings) in it; there is no high-signal-phrase clause. -/
theorem nil_c3_two_keyword_rule : ∀ (title body : String),
    is_relevant (title ++ " " ++ body) = true ↔
      ∃ k1 ∈ KEYWORDS, ∃ k2 ∈ KEYWORDS, k1 ≠ k2 ∧
        strContains (lowerStr (title ++ " " ++ body)) k1 = true ∧
        strContains (lowerStr (title ++ " " ++ body)) k2 = true := by
  intro title body
  have hmap : KEYWORDS.map lowerStr = KEYWORDS := by decide
  have hnd : KEYWORDS.Nodup := by decide
  simp only [is_relevant, hmap, decide_eq_true_eq]
  constructor
  · intro h
    exact pair_of_countP_two hnd h
  · rintro ⟨k1, h1, k2, h2, hne, hc1, hc2⟩
    exact countP_two_of_pair h1 h2 hne hc1 hc2

/-! ## Claim C1: dedup idempotence -/

theorem any_iff_countId (db : List Record) (i : String) :
    db.any (fun r => r.id == i) = true ↔ 0 < countId db i := by
  simp [countId, List.any_eq_true, List.countP_pos_iff]

theorem ingest_many_nil (o : Oracles) (e : Entry) (db : List Record) :
    ingest_many o [] e db = db := rfl

theorem ingest_many_cons (o : Oracles) (run : (String → Option String) × String)
    (rest : List ((String → Option String) × String)) (e : Entry) (db : List Record) :
    ingest_many o (run :: rest) e db
      = ingest_many o rest e (process_entry o run.1 run.2 e db).1 := by
  simp [ingest_many]

theorem process_entry_exists {o : Oracles} {pages : String → Option String}
    {now : String} {e : Entry} {db : List Record} {url : String}
    (hl : e.link = some url) (hx : 0 < countId db (o.hash url)) :
    process_entry o pages now e db = (db, PEOutcome.alreadyExists) := by
  have hany : db.any (fun r => r.id == o.hash url) = true := (any_iff_countId db _).mpr hx
  simp [process_entry, hl, hany]

theorem process_entry_cases {o : Oracles} (pages : String → Option String)
    (now : String) {e : Entry} (db : List Record) {url : String} (hl : e.link = some url) :
    ((process_entry o pages now e db).1 = db ∧
     (process_entry o pages now e db).2 ≠ PEOutcome.stored) ∨
    (countId db (o.hash url) = 0 ∧
     countId (process_entry o pages now e db).1 (o.hash url) = 1 ∧
     (process_entry o pages now e db).2 = PEOutcome.stored) := by
  by_cases hany : db.any (fun r => r.id == o.hash url) = true
  · left
    simp [process_entry, hl, hany]
  · have h0 : countId db (o.hash url) = 0 := by
      by_contra hc
      exact hany ((any_iff_countId db _).mpr (Nat.pos_of_ne_zero hc))
    by_cases hrel : is_relevant (e.title.getD "No title" ++ " " ++
        resolveText (pages url) o.extractOf e) = false
    · left
      simp [process_entry, hl, hany, hrel]
    · right
      refine ⟨h0, ?_, ?_⟩
      · simp only [countId] at h0
        simp only [process_entry, hl, if_neg hany, if_neg hrel]
        simp [countId, List.countP_append, List.countP_cons, h0]
      · simp only [process_entry, hl, if_neg hany, if_neg hrel]

theorem ingest_many_countId_le_one {o : Oracles} {e : Entry} {url : String}
    (hl : e.link = some url) :
    ∀ (runs : List ((String → Option String) × String)) (db : List Record),
      countId db (o.hash url) ≤ 1 →
      countId (ingest_many o runs e db) (o.hash url) ≤ 1 := by
  intro runs
  induction runs with
  | nil => intro db h; simpa [ingest_many_nil] using h
  | cons run rest ih =>
    intro db h
    rw [ingest_many_cons]
    rcases process_entry_cases run.1 run.2 db hl with
      ⟨hsame, _⟩ | ⟨_, h1, _⟩
    · rw [hsame]; exact ih db h
    · exact ih _ (by omega)

theorem ingest_many_countId_eq_one {o : Oracles} {e : Entry} {url : String}
    (hl : e.link = some url) :
    ∀ (runs : List ((String → Option String) × String)) (db : List Record),
      countId db (o.hash url) = 1 →
      countId (ingest_many o runs e db) (o.hash url) = 1 := by
  intro runs
  induction runs with
  | nil => intro db h; simpa [ingest_many_nil] using h
  | cons run rest ih =>
    intro db h
    rw [ingest_many_cons]
    have hstep : process_entry o run.1 run.2 e db = (db, PEOutcome.alreadyExists) :=
      process_entry_exists hl (by omega)
    rw [hstep]
    exact ih db h

/-- C1: for a fixed canonical URL, re-ingesting its entry any number of
times across any crawl passes keeps at most one stored row with its id
(exactly one once a store has happened), and an attempt on an id that
already exists is a pure no-op whose outcome is the already-exists path,
not an error. -/
theorem nil_c1_dedup_idempotent : ∀ (o : Oracles) (e : Entry) (url : String),
    e.link = some url →
    ∀ (db : List Record) (pages : String → Option String) (now : String)
      (runs : List ((String → Option String) × String)),
    (1 ≤ countId db (o.hash url) →
      process_entry o pages now e db = (db, PEOutcome.alreadyExists)) ∧
    (countId db (o.hash url) ≤ 1 →
      countId (ingest_many o runs e db) (o.hash url) ≤ 1) ∧
    ((process_entry o pages now e db).2 = PEOutcome.stored →
      countId (ingest_many o runs e (process_entry o pages now e db).1) (o.hash url) = 1) := by
  intro o e url hl db pages now runs
  refine ⟨?_, ?_, ?_⟩
  · intro h
    exact process_entry_exists hl h
  · intro h
    exact ingest_many_countId_le_one hl runs db h
  · intro hs
    rcases process_entry_cases pages now db hl with
      ⟨_, hne⟩ | ⟨_, h1, _⟩
    · exact absurd hs hne
    · exact ingest_many_countId_eq_one hl runs _ h1

/-- Witness for C1: the spec's scenario entry, stored on the first pass,
stays unique after a second pass re-delivers it. -/
theorem nil_c1_dedup_idempotent_witness :
    countId
      (ingest_many oracle_w [(fun _ => none, "2024-06-05T14:00:00")] entry_w
        (process_entry oracle_w (fun _ => none) "2024-06-05T13:00:00" entry_w []).1)
      (oracle_w.hash "https://x.com/a") = 1 :=
  (nil_c1_dedup_idempotent oracle_w entry_w "https://x.com/a" rfl []
    (fun _ => none) "2024-06-05T13:00:00" [(fun _ => none, "2024-06-05T14:00:00")]).2.2
    (by decide)

/-! ## Claim C9: per-source isolation -/

/-- C9: a failing or malformed source is skipped — the pass over the
remaining sources computes exactly the same store as if the bad source
were absent — and an ok source has its (first 8) entries processed
normally. -/
theorem nil_c9_source_isolation : ∀ (o : Oracles) (pages : String → Option String)
    (now : String) (pre post : List FeedResult) (db : List Record),
    crawl_feeds o pages now (pre ++ FeedResult.err :: post) db
      = crawl_feeds o pages now (pre ++ post) db ∧
    crawl_feeds o pages now (pre ++ FeedResult.bozo :: post) db
      = crawl_feeds o pages now (pre ++ post) db ∧
    ∀ (entries : List Entry),
      crawl_feeds o pages now [FeedResult.ok entries] db
        = (entries.take 8).foldl (fun d e => (process_entry o pages now e d).1) db := by
  intro o pages now pre post db
  refine ⟨?_, ?_, ?_⟩
  · simp [crawl_feeds, List.foldl_append]
  · simp [crawl_feeds, List.foldl_append]
  · intro entries
    simp [crawl_feeds]

/-! ## Claim C5: the crawl trigger has no mutual-exclusion guard -/

/-- C5 counterexample: with one crawl pass already in flight, the
trigger endpoint does not answer "already running" and does not leave
the number of in-flight passes unchanged — it starts a second pass. -/
theorem nil_c5_cx_no_guard :
    ¬ ((manual_crawl ⟨1⟩).2 = "already running" ∧
       (manual_crawl ⟨1⟩).1.activeCrawls ≤ 1) := by decide

/-- C5 amended: every trigger request unconditionally spawns one more
crawl pass and answers "enhanced crawl started", whatever is already
running. -/
theorem nil_c5_always_starts : ∀ (s : AppState),
    manual_crawl s = (⟨s.activeCrawls + 1⟩, "enhanced crawl started") := by
  intro s
  rfl

/-! ## Claim C6: the content resolver -/

/-- C6 counterexample: with a successful fetch whose extraction is
empty, the resolver falls back to the raw page text (truncated to 2000
characters), not to the feed entry's summary/description. -/
theorem nil_c6_cx_extraction_fallback :
    resolveText (some "<div>shell</div>") (fun _ => "") entry_c6 = "<div>shell</div>" ∧
    resolveText (some "<div>shell</div>") (fun _ => "") entry_c6 ≠
      entry_c6.summary.getD "" ++ " " ++ entry_c6.description.getD "" := by decide

/-- C6 amended: the resolver is total (no error propagates): a failed
fetch falls back to summary + description, a successful fetch with empty
extraction falls back to the first 2000 characters of the raw page, a
non-empty extraction is used as is; and an entry whose resolved text is
not relevant (an empty fallback in particular) is dropped as a terminal
skip, leaving the store untouched. -/
theorem nil_c6_resolver_total_fallbacks : ∀ (ex : String → String) (e : Entry)
    (html : String) (o : Oracles) (pages : String → Option String) (now : String)
    (db : List Record) (url : String),
    (resolveText none ex e = e.summary.getD "" ++ " " ++ e.description.getD "") ∧
    (ex html = "" → resolveText (some html) ex e = pyTake html 2000) ∧
    (ex html ≠ "" → resolveText (some html) ex e = ex html) ∧
    (e.link = some url →
      db.any (fun r => r.id == o.hash url) = false →
      is_relevant (e.title.getD "No title" ++ " " ++
        resolveText (pages url) o.extractOf e) = false →
      process_entry o pages now e db = (db, PEOutcome.irrelevant)) := by
  intro ex e html o pages now db url
  refine ⟨rfl, ?_, ?_, ?_⟩
  · intro h
    simp [resolveText, h]
  · intro h
    simp [resolveText, h]
  · intro hl hany hrel
    simp [process_entry, hl, hany, hrel]

/-- Witness for C6 at a concrete input: an entry with no usable text is
dropped with the irrelevant outcome. -/
theorem nil_c6_resolver_total_fallbacks_witness :
    process_entry oracle_w (fun _ => none) "t"
      { link := some "u", title := none, summary := none,
        description := none, published := none } []
      = ([], PEOutcome.irrelevant) :=
  (nil_c6_resolver_total_fallbacks oracle_w.extractOf
    { link := some "u", title := none, summary := none,
      description := none, published := none }
    "" oracle_w (fun _ => none) "t" [] "u").2.2.2 rfl (by decide) (by decide)

/-! ## Claim C8: the recency basis -/

/-- C8 counterexample: a row whose `published` is present (an RFC-822
feed date) but not parseable by SQLite gets a NULL `sort_date`, while
the specification's recency basis would fall back to the parseable
`crawled_at`. -/
theorem nil_c8_cx_unparseable_published :
    sort_date row_c8 = none ∧
    spec_recency_basis row_c8.published row_c8.crawledAt ≠ none ∧
    sort_date row_c8 ≠ spec_recency_basis row_c8.published row_c8.crawledAt := by decide

/-- C8 amended: the code's `sort_date` agrees with the specification's
recency basis whenever `published` is empty or parseable; when
`published` is present but unparseable, `sort_date` is NULL instead of
falling back to the ingestion time. -/
theorem nil_c8_recency_basis : ∀ (r : Record),
    (r.published = "" → sort_date r = sqliteDatetime r.crawledAt) ∧
    ((sqliteDatetime r.published).isSome ∨ r.published = "" →
      sort_date r = spec_recency_basis r.published r.crawledAt) ∧
    (r.published ≠ "" → sqliteDatetime r.published = none → sort_date r = none) := by
  intro r
  refine ⟨?_, ?_, ?_⟩
  · intro h
    simp [sort_date, h]
  · intro h
    by_cases he : r.published = ""
    · have h0 : sqliteDatetime "" = none := by decide
      simp [sort_date, he, spec_recency_basis, h0]
    · rcases h with h | h
      · obtain ⟨t, ht⟩ := Option.isSome_iff_exists.mp h
        simp [sort_date, he, spec_recency_basis, ht]
      · exact absurd h he
  · intro h hn
    simp [sort_date, h, hn]

/-- Witness for C8 at a concrete input: an empty `published` falls back
to the crawl time. -/
theorem nil_c8_recency_basis_witness :
    sort_date { row_c8 with published := "" }
      = sqliteDatetime ({ row_c8 with published := "" } : Record).crawledAt :=
  (nil_c8_recency_basis { row_c8 with published := "" }).1 rfl

/-! ## Claim C10: the nil_wire summaries endpoint -/

theorem lexLe_total : ∀ (a b : List Char), lexLe a b = true ∨ lexLe b a = true := by
  intro a
  induction a with
  | nil => intro b; left; rfl
  | cons x xs ih =>
    intro b
    cases b with
    | nil => right; rfl
    | cons y ys =>
      by_cases h1 : x.toNat < y.toNat
      · left; simp [lexLe, h1]
      · by_cases h2 : y.toNat < x.toNat
        · right; simp [lexLe, h2]
        · rcases ih ys with h | h
          · left; simp [lexLe, h1, h2, h]
          · right; simp [lexLe, h1, h2, h]

theorem lexLe_trans : ∀ (a b c : List Char),
    lexLe a b = true → lexLe b c = true → lexLe a c = true := by
  intro a
  induction a with
  | nil => intro b c _ _; rfl
  | cons x xs ih =>
    intro b c hab hbc
    cases b with
    | nil => simp [lexLe] at hab
    | cons y ys =>
      cases c with
      | nil => simp [lexLe] at hbc
      | cons z zs =>
        by_cases hxy : x.toNat < y.toNat
        · by_cases hyz : y.toNat < z.toNat
          · have hxz : x.toNat < z.toNat := Nat.lt_trans hxy hyz
            simp [lexLe, hxz]
          · by_cases hzy : z.toNat < y.toNat
            · simp [lexLe, hyz, hzy] at hbc
            · have hxz : x.toNat < z.toNat := by omega
              simp [lexLe, hxz]
        · by_cases hyx : y.toNat < x.toNat
          · simp [lexLe, hxy, hyx] at hab
          · have hab2 : lexLe xs ys = true := by simpa [lexLe, hxy, hyx] using hab
            by_cases hyz : y.toNat < z.toNat
            · have hxz : x.toNat < z.toNat := by omega
              simp [lexLe, hxz]
            · by_cases hzy : z.toNat < y.toNat
              · simp [lexLe, hyz, hzy] at hbc
              · have hbc2 : lexLe ys zs = true := by simpa [lexLe, hyz, hzy] using hbc
                have hxz1 : ¬ x.toNat < z.toNat := by omega
                have hxz2 : ¬ z.toNat < x.toNat := by omega
                simp only [lexLe, if_neg hxz1, if_neg hxz2]
                exact ih ys zs hab2 hbc2

theorem crawl_desc_total : ∀ (a b : WireStory), crawl_desc a b ∨ crawl_desc b a := by
  intro a b
  rcases lexLe_total b.crawledAt.data a.crawledAt.data with h | h
  · exact Or.inl h
  · exact Or.inr h

theorem crawl_desc_trans : ∀ (a b c : WireStory),
    crawl_desc a b → crawl_desc b c → crawl_desc a c := by
  intro a b c h1 h2
  exact lexLe_trans _ _ _ h2 h1

/-- C10 counterexample: a negative limit passes the `limit > 500` check,
and SQLite's negative LIMIT returns every row — more than "at most
limit" allows. -/
theorem nil_c10_cx_negative_limit :
    summaries (-1) [wire_c10] = Except.ok [wire_c10] ∧
    ¬ ((([wire_c10] : List WireStory).length : Int) ≤ -1) :=
  ⟨rfl, by decide⟩

/-- C10 amended: a limit above 500 is rejected with HTTP 400 "limit too
high"; a limit in [0, 500] returns at most that many rows ordered by
crawl time descending; a negative limit slips past the check and returns
every row (still crawl-time descending). -/
theorem nil_c10_summaries_limit : ∀ (lim : Int) (db : List WireStory),
    (500 < lim → summaries lim db = Except.error (400, "limit too high")) ∧
    (lim ≤ 500 →
      ∃ out, summaries lim db = Except.ok out ∧
        List.Sorted crawl_desc out ∧
        (0 ≤ lim → (out.length : Int) ≤ lim) ∧
        (lim < 0 → out.Perm db)) := by
  intro lim db
  constructor
  · intro h
    simp [summaries, h]
  · intro h
    have hn : ¬ 500 < lim := by omega
    refine ⟨limitTake lim (List.insertionSort crawl_desc db), ?_, ?_, ?_, ?_⟩
    · simp [summaries, hn]
    · have hs : List.Sorted crawl_desc (List.insertionSort crawl_desc db) :=
        @List.sorted_insertionSort _ crawl_desc _ ⟨crawl_desc_total⟩ ⟨crawl_desc_trans⟩ db
      unfold limitTake
      by_cases hneg : lim < 0
      · simpa [hneg] using hs
      · simp only [if_neg hneg]
        exact List.Pairwise.sublist (List.take_sublist _ _) hs
    · intro h0
      unfold limitTake
      have hneg : ¬ lim < 0 := by omega
      simp only [if_neg hneg]
      have hlen := List.length_take_le lim.toNat (List.insertionSort crawl_desc db)
      omega
    · intro hneg
      unfold limitTake
      simp only [if_pos hneg]
      exact List.perm_insertionSort crawl_desc db

/-- Witness for C10 at concrete inputs: an over-limit request errors. -/
theorem nil_c10_summaries_limit_witness :
    summaries 501 [] = Except.error (400, "limit too high") :=
  (nil_c10_summaries_limit 501 []).1 (by decide)

/-! ## Claim C2: the composite ranking -/

theorem opt_le_total : ∀ (a b : Option Int), opt_le a b = true ∨ opt_le b a = true := by
  intro a b
  cases a <;> cases b <;> simp [opt_le]
  omega

theorem opt_le_trans : ∀ (a b c : Option Int),
    opt_le a b = true → opt_le b c = true → opt_le a c = true := by
  intro a b c h1 h2
  cases a <;> cases b <;> cases c <;> simp [opt_le] at h1 h2 ⊢
  omega

theorem rank_rel_iff (n1 n3 n7 n14 : Int) (a b : Record) :
    rank_rel n1 n3 n7 n14 a b ↔
      (sql_composite n1 n3 n7 n14 b < sql_composite n1 n3 n7 n14 a ∨
       (sql_composite n1 n3 n7 n14 a = sql_composite n1 n3 n7 n14 b ∧
        opt_le (sort_date b) (sort_date a) = true)) := by
  unfold rank_rel rank_le_b
  simp [Bool.or_eq_true, Bool.and_eq_true, decide_eq_true_eq, beq_iff_eq]

theorem rank_rel_total (n1 n3 n7 n14 : Int) :
    ∀ (a b : Record), rank_rel n1 n3 n7 n14 a b ∨ rank_rel n1 n3 n7 n14 b a := by
  intro a b
  rw [rank_rel_iff, rank_rel_iff]
  rcases Nat.lt_trichotomy (sql_composite n1 n3 n7 n14 a) (sql_composite n1 n3 n7 n14 b) with
    h | h | h
  · right; left; exact h
  · rcases opt_le_total (sort_date b) (sort_date a) with hle | hle
    · left; right; exact ⟨h, hle⟩
    · right; right; exact ⟨h.symm, hle⟩
  · left; left; exact h

theorem rank_rel_trans (n1 n3 n7 n14 : Int) :
    ∀ (a b c : Record), rank_rel n1 n3 n7 n14 a b → rank_rel n1 n3 n7 n14 b c →
      rank_rel n1 n3 n7 n14 a c := by
  intro a b c hab hbc
  rw [rank_rel_iff] at hab hbc ⊢
  rcases hab with hab | ⟨hab1, hab2⟩
  · rcases hbc with hbc | ⟨hbc1, hbc2⟩
    · left; omega
    · left; omega
  · rcases hbc with hbc | ⟨hbc1, hbc2⟩
    · left; omega
    · right
      exact ⟨by omega, opt_le_trans _ _ _ hbc2 hab2⟩

theorem sql_composite_eq_spec (n1 n3 n7 n14 : Int) (r : Record) :
    sql_composite n1 n3 n7 n14 r = spec_composite n1 n3 n7 n14 r := by
  unfold sql_composite spec_composite breaking_bonus recency_bonus
  cases hb : r.breaking <;> cases hg : opt_gt (sort_date r) n1 <;> simp [hb, hg]

theorem rank_rel_imp_spec (n1 n3 n7 n14 : Int) (a b : Record)
    (h : rank_rel n1 n3 n7 n14 a b) : spec_rank n1 n3 n7 n14 a b := by
  rw [rank_rel_iff] at h
  unfold spec_rank
  simp only [← sql_composite_eq_spec]
  exact h

/-- C2: the query's ORDER BY expression computes exactly the
specification's composite score (breaking bonus + recency tier +
relevance), and the returned rows are a permutation of the store sorted
descending by that composite with ties broken by the recency basis
descending, cut to the requested limit. -/
theorem nil_c2_ranking_order : ∀ (n1 n3 n7 n14 lim : Int) (db : List Record),
    (∀ r, sql_composite n1 n3 n7 n14 r = spec_composite n1 n3 n7 n14 r) ∧
    ∃ db2, db2.Perm db ∧ List.Sorted (spec_rank n1 n3 n7 n14) db2 ∧
      get_summaries n1 n3 n7 n14 lim db = limitTake lim db2 := by
  intro n1 n3 n7 n14 lim db
  refine ⟨fun r => sql_composite_eq_spec n1 n3 n7 n14 r, ?_⟩
  refine ⟨List.insertionSort (rank_rel n1 n3 n7 n14) db, ?_, ?_, rfl⟩
  · exact List.perm_insertionSort _ db
  · have hs : List.Sorted (rank_rel n1 n3 n7 n14)
        (List.insertionSort (rank_rel n1 n3 n7 n14) db) :=
      @List.sorted_insertionSort _ _ _
        ⟨rank_rel_total n1 n3 n7 n14⟩ ⟨rank_rel_trans n1 n3 n7 n14⟩ db
    exact List.Pairwise.imp (fun hab => rank_rel_imp_spec n1 n3 n7 n14 _ _ hab) hs
